import Mathlib

/-!
Verification development for the snowbridge parachain commitment scanner
(relayer, package `parachain`).  The Go source is shallowly embedded:
every RPC surface the scanner consults (relay chain, parachain, Ethereum
inbound channel, event query client, merkle-proof RPC) is modelled as a
deterministic oracle collected in `ScanEnv`; an oracle answering `none`
models a transport (RPC) failure.  Machine integers (`uint64`, `uint32`)
are modelled as `Nat` with explicit reduction modulo `2^64` / `2^32`
exactly where the Go code can overflow.  All definitions are executable;
the concrete environments below let single scans be evaluated by the
kernel.
-/

namespace Snowbridge


/-- Opaque 32-byte account identifier (`types.AccountID`). -/
abbrev Account := Nat

/-- Opaque 32-byte hash (`types.Hash` / `types.H256`). -/
abbrev Hash := Nat

/-- Auxiliary digest item carried in a parachain header digest.
The scanner only distinguishes the `Commitment` variant. -/
inductive AuxiliaryDigestItem where
  | commitment (hash : Hash)
  | other (tag : Nat)
deriving DecidableEq

/-- Mirrors the Go field access `digestItem.IsCommitment`. -/
def AuxiliaryDigestItem.isCommitment : AuxiliaryDigestItem → Bool
  | .commitment _ => true
  | .other _ => false

/-- Mirrors the Go field access `digestItem.AsCommitment.Hash`
(meaningful only when the item is a commitment). -/
def AuxiliaryDigestItem.commitmentHash : AuxiliaryDigestItem → Hash
  | .commitment h => h
  | .other _ => 0

/-- Parachain block header (`types.Header`).  The digest is modelled
directly as the list of auxiliary digest items, i.e. the SCALE parsing
step `ExtractAuxiliaryDigestItems` (defined outside the scanner source)
is taken as the identity on well-formed digests. -/
structure Header where
  number : Nat
  parentHash : Hash
  stateRoot : Hash
  extrinsicsRoot : Hash
  digest : List AuxiliaryDigestItem
deriving DecidableEq

/-- A message bundle inside a basic-channel commitment
(`BasicOutboundChannelMessageBundle`). -/
structure BasicOutboundChannelMessageBundle where
  account : Account
  nonce : Nat
  messages : List Nat
deriving DecidableEq

/-- Merkle proof for a bundle, as produced by `NewMerkleProof`.  The
scanner only ever inspects the reconstructed root. -/
structure MerkleProof where
  root : Hash
deriving DecidableEq

/-- `BundleProof{Bundle, Proof}`. -/
structure BundleProof where
  bundle : BasicOutboundChannelMessageBundle
  proof : MerkleProof
deriving DecidableEq

/-- The `BasicOutboundChannel.Committed` event for a block, as returned
by the event query client (`events.Hash`, `events.Bundles`). -/
structure CommittedEvent where
  hash : Hash
  bundles : List BasicOutboundChannelMessageBundle
deriving DecidableEq

/-- `ProofInput{ParaID, RelayBlockNumber, ParaHeads}`. -/
structure ProofInput where
  paraID : Nat
  relayBlockNumber : Nat
  paraHeads : List Header
deriving DecidableEq

/-- `Task{Header, BasicChannelProofs, ProofInput}`.  `ProofOutput` is
always `nil` in the scanner and is omitted. -/
structure Task where
  header : Header
  basicChannelProofs : List BundleProof
  proofInput : Option ProofInput
deriving DecidableEq

/-- `PersistedValidationData` read from `ParachainSystem.ValidationData`. -/
structure PersistedValidationData where
  parentHead : List Nat
  relayParentNumber : Nat
  relayParentStorageRoot : Hash
  maxPOVSize : Nat
deriving DecidableEq

/-- Errors surfaced by the scanner.  Go returns formatted error strings;
we keep one constructor per distinct failure site. -/
inductive ScanError where
  /-- any RPC/transport failure, including merkle-proof fetch and decode -/
  | rpc
  /-- the parachain is not registered on the relay chain -/
  | notRegistered
  /-- `event basicOutboundChannel.Committed not found in block` -/
  | eventsMissing
  /-- commitment hash in digest item differs from the Committed event -/
  | commitmentHashMismatch
  /-- `PersistedValidationData not found` -/
  | validationDataMissing
  /-- `scan terminated`: inclusion not found within the window -/
  | inclusionNotFound
deriving DecidableEq

/-- The environment of the scanner: its static configuration plus one
deterministic oracle per RPC surface it consults.  A result of `none`
models an RPC/transport failure; for storage reads the inner `Option`
models absent storage, and for `fetchParachainHead` the inner `Option`
models "parachain not registered".  `fetchParachainHead` is always
called with the configured `paraID`, so that argument is baked in. -/
structure ScanEnv where
  paraID : Nat
  accounts : List Account
  relayBlockHash : Nat → Option Hash
  fetchParachainHead : Hash → Option (Option Header)
  fetchParachainHeads : Hash → Option (List Header)
  paraBlockHash : Nat → Option Hash
  paraHeader : Hash → Option Header
  ethNonce : Account → Option Nat
  paraNonce : Hash → Account → Option (Option Nat)
  queryEvent : Hash → Option (Option CommittedEvent)
  getMerkleProof : Hash → Nat → Option MerkleProof
  validationData : Hash → Option (Option PersistedValidationData)

/-- `FinalizationTimeout = 4`. -/
def FinalizationTimeout : Nat := 4

/-- Modulus of the Go `uint32` type. -/
def UInt32Mod : Nat := 2 ^ 32

/-- Modulus of the Go `uint64` type. -/
def UInt64Mod : Nat := 2 ^ 64

/-- Go map lookup `basicChannelAccountNonces[account]` on an
association-list representation (absent key reads as zero, as in Go). -/
def lookupNonce (targets : List (Account × Nat)) (a : Account) : Nat :=
  match targets.find? (fun p => p.1 == a) with
  | some p => p.2
  | none => 0

/-- `markAccountScanDone`: delete the account from the searching set and
report whether the set became empty. -/
def markAccountScanDone (searching : List Account) (accountID : Account) :
    List Account × Bool :=
  let s := searching.filter (fun x => x != accountID)
  (s, s.isEmpty)

/-- `fetchBundleProof`: fetch and decode the merkle proof for a bundle at
its index.  All RPC/decode failures are collapsed into the `rpc` error. -/
def fetchBundleProof (env : ScanEnv) (commitmentHash : Hash) (bundleIndex : Nat)
    (bundle : BasicOutboundChannelMessageBundle) : Except ScanError BundleProof :=
  match env.getMerkleProof commitmentHash bundleIndex with
  | none => .error .rpc
  | some proof => .ok { bundle := bundle, proof := proof }

/-- Result record of `scanForBasicChannelProofs`.  The Go function
returns `{proofs, scanDone}` and mutates the searching map in place; the
post-mutation map is returned here as `searching`. -/
structure ScanResult where
  proofs : List BundleProof
  searching : List Account
  scanDone : Bool
deriving DecidableEq

/-- The bundle loop of `scanForBasicChannelProofs` (source lines
372-415), threading the loop index, the collected proofs, the searching
set and the `scanBasicChannelDone` flag. -/
def scanLoop (env : ScanEnv) (digestItemHash : Hash)
    (targets : List (Account × Nat)) :
    List BasicOutboundChannelMessageBundle → Nat → List BundleProof →
    List Account → Bool → Except ScanError ScanResult
  | [], _, proofs, searching, done => .ok ⟨proofs, searching, done⟩
  | b :: rest, idx, proofs, searching, done =>
    if b.account ∈ searching then
      let nonceToFind := lookupNonce targets b.account
      if b.nonce < nonceToFind then
        let md := markAccountScanDone searching b.account
        scanLoop env digestItemHash targets rest (idx + 1) proofs md.1 md.2
      else
        match fetchBundleProof env digestItemHash idx b with
        | .error e => .error e
        | .ok bp =>
          if bp.proof.root ≠ digestItemHash then
            let md := markAccountScanDone searching b.account
            scanLoop env digestItemHash targets rest (idx + 1) proofs md.1 md.2
          else if b.nonce > nonceToFind then
            scanLoop env digestItemHash targets rest (idx + 1) (proofs ++ [bp]) searching done
          else if b.nonce = nonceToFind then
            let md := markAccountScanDone searching b.account
            scanLoop env digestItemHash targets rest (idx + 1) (proofs ++ [bp]) md.1 md.2
          else
            scanLoop env digestItemHash targets rest (idx + 1) proofs searching done
    else
      scanLoop env digestItemHash targets rest (idx + 1) proofs searching done

/-- `scanForBasicChannelProofs` (source lines 359-424): scan the event's
bundles against the still-searching accounts and their target nonces. -/
def scanForBasicChannelProofs (env : ScanEnv) (digestItemHash : Hash)
    (targets : List (Account × Nat)) (searching : List Account)
    (bundles : List BasicOutboundChannelMessageBundle) :
    Except ScanError ScanResult :=
  scanLoop env digestItemHash targets bundles 0 [] searching false

/-- The digest-item loop of `findTasksImpl` (source lines 211-242).
For each commitment item found while the scan is not done: the Committed
event must be present, its hash must equal the digest item's hash, and
the scan result then REPLACES the block's collected proofs
(`basicChannelProofs = result.proofs`, an assignment in the source). -/
def processDigestItems (env : ScanEnv) (targets : List (Account × Nat))
    (events : Option CommittedEvent) :
    List AuxiliaryDigestItem → List BundleProof → List Account → Bool →
    Except ScanError (List BundleProof × List Account × Bool)
  | [], proofs, searching, done => .ok (proofs, searching, done)
  | item :: rest, proofs, searching, done =>
    if item.isCommitment = false then
      processDigestItems env targets events rest proofs searching done
    else if done = true then
      processDigestItems env targets events rest proofs searching done
    else
      match events with
      | none => .error .eventsMissing
      | some ev =>
        if ev.hash ≠ item.commitmentHash then .error .commitmentHashMismatch
        else
          match scanForBasicChannelProofs env item.commitmentHash targets searching ev.bundles with
          | .error e => .error e
          | .ok result =>
            processDigestItems env targets events rest result.proofs result.searching result.scanDone

/-- The backward block walk of `findTasksImpl` (source lines 179-255),
by structural recursion on the current block number; the second
component records the block numbers whose loop body was entered. -/
def walkAux (env : ScanEnv) (targets : List (Account × Nat)) :
    Nat → List Account → Bool → Except ScanError (List Task) × List Nat
  | 0, _, _ => (.ok [], [])
  | n + 1, searching, done =>
    if done then (.ok [], [])
    else
      match env.paraBlockHash (n + 1) with
      | none => (.error .rpc, [n + 1])
      | some blockHash =>
        match env.paraHeader blockHash with
        | none => (.error .rpc, [n + 1])
        | some header =>
          if header.digest.isEmpty then
            let r := walkAux env targets n searching done
            (r.1, (n + 1) :: r.2)
          else
            match env.queryEvent blockHash with
            | none => (.error .rpc, [n + 1])
            | some events =>
              match processDigestItems env targets events header.digest [] searching done with
              | .error e => (.error e, [n + 1])
              | .ok (proofs, searching', done') =>
                let r := walkAux env targets n searching' done'
                match r.1 with
                | .error e => (.error e, (n + 1) :: r.2)
                | .ok tasks =>
                  if proofs.isEmpty then (.ok tasks, (n + 1) :: r.2)
                  else
                    (.ok ({ header := header, basicChannelProofs := proofs,
                            proofInput := none } :: tasks), (n + 1) :: r.2)

/-- The task list produced by the backward walk. -/
def walk (env : ScanEnv) (targets : List (Account × Nat)) (n : Nat)
    (searching : List Account) (done : Bool) : Except ScanError (List Task) :=
  (walkAux env targets n searching done).1

/-- The block numbers visited by the backward walk. -/
def walkTrace (env : ScanEnv) (targets : List (Account × Nat)) (n : Nat)
    (searching : List Account) (done : Bool) : List Nat :=
  (walkAux env targets n searching done).2

/-- Stable insertion used to model `sort.SliceStable(tasks, less)` with
`less i j := tasks[i].Header.Number < tasks[j].Header.Number`: a task is
inserted after every task whose number is less than or equal to its own. -/
def insertTaskByNumber (t : Task) : List Task → List Task
  | [] => [t]
  | u :: us =>
    if u.header.number ≤ t.header.number then u :: insertTaskByNumber t us
    else t :: u :: us

/-- Stable ascending sort by parachain block number (source lines
257-260). -/
def sortTasksByNumber (tasks : List Task) : List Task :=
  tasks.foldl (fun acc t => insertTaskByNumber t acc) []

/-- `findTasksImpl` (source lines 152-263): run the backward walk from
`lastParaBlockNumber` and sort the produced tasks by ascending block
number.  The searching set starts as the key set of the nonce map and
the done flag as its emptiness. -/
def findTasksImpl (env : ScanEnv) (lastParaBlockNumber : Nat)
    (basicChannelAccountNonces : List (Account × Nat)) :
    Except ScanError (List Task) :=
  let basicChannelScanAccounts := basicChannelAccountNonces.map Prod.fst
  let scanBasicChannelDone := basicChannelScanAccounts.isEmpty
  match walk env basicChannelAccountNonces lastParaBlockNumber
      basicChannelScanAccounts scanBasicChannelDone with
  | .error e => .error e
  | .ok tasks => .ok (sortTasksByNumber tasks)

/-- The relay block numbers examined by `findInclusionBlockNumber`
(source lines 335-336): `i` ranges over the Go `uint32` values from
`relayParentNumber + 1` while `i < startBlock + FinalizationTimeout`,
both computed in `uint32` arithmetic.  When `startBlock +
FinalizationTimeout` wraps around `2^32` the loop condition fails
immediately and no block is examined. -/
def inclusionCandidates (relayParentNumber : Nat) : List Nat :=
  let startBlock := (relayParentNumber + 1) % UInt32Mod
  if startBlock + FinalizationTimeout < UInt32Mod then
    List.range' startBlock FinalizationTimeout
  else
    []

/-- The relay-block probe loop of `findInclusionBlockNumber` (source
lines 336-354): return the first candidate relay block whose registered
parachain head has the sought block number. -/
def findInclusionLoop (env : ScanEnv) (paraBlockNumber : Nat) :
    List Nat → Except ScanError Nat
  | [] => .error .inclusionNotFound
  | i :: rest =>
    match env.relayBlockHash i with
    | none => .error .rpc
    | some relayBlockHash =>
      match env.fetchParachainHead relayBlockHash with
      | none => .error .rpc
      | some none => .error .notRegistered
      | some (some paraHead) =>
        if paraBlockNumber = paraHead.number then .ok i
        else findInclusionLoop env paraBlockNumber rest

/-- `findInclusionBlockNumber` (source lines 313-357): find the relay
block in which the parachain header with the given number was included,
within `FinalizationTimeout` blocks of its relay parent. -/
def findInclusionBlockNumber (env : ScanEnv) (paraBlockNumber : Nat) :
    Except ScanError Nat :=
  match env.paraBlockHash paraBlockNumber with
  | none => .error .rpc
  | some paraBlockHash =>
    match env.validationData paraBlockHash with
    | none => .error .rpc
    | some none => .error .validationDataMissing
    | some (some vd) =>
      findInclusionLoop env paraBlockNumber (inclusionCandidates vd.relayParentNumber)

/-- `gatherProofInputs` (source lines 274-306): for each task in order,
find its inclusion relay block and attach
`ProofInput{paraID, relayBlockNumber, paraHeads}`.  The Go function
mutates the pointed-to tasks and returns on the first error, leaving the
remaining tasks untouched; the returned pair is the post-mutation task
list together with that error, if any. -/
def gatherProofInputs (env : ScanEnv) :
    List Task → List Task × Option ScanError
  | [] => ([], none)
  | t :: rest =>
    match findInclusionBlockNumber env t.header.number with
    | .error e => (t :: rest, some e)
    | .ok relayBlockNumber =>
      match env.relayBlockHash relayBlockNumber with
      | none => (t :: rest, some .rpc)
      | some relayBlockHash =>
        match env.fetchParachainHeads relayBlockHash with
        | none => (t :: rest, some .rpc)
        | some parachainHeads =>
          let pi : ProofInput :=
            { paraID := env.paraID, relayBlockNumber := relayBlockNumber,
              paraHeads := parachainHeads }
          let t' := { t with proofInput := some pi }
          let r := gatherProofInputs env rest
          (t' :: r.1, r.2)

/-- The per-account nonce comparison loop of `findTasks` (source lines
96-128): for each configured account, read the Ethereum-side nonce and
the parachain-side nonce at `paraHash` (absent storage reads as zero)
and register `account ↦ ethNonce + 1` when the parachain nonce is
strictly greater. -/
def computeNoncesToFind (env : ScanEnv) (paraHash : Hash) :
    List Account → Except ScanError (List (Account × Nat))
  | [] => .ok []
  | account :: rest =>
    match env.ethNonce account with
    | none => .error .rpc
    | some ethBasicNonce =>
      match env.paraNonce paraHash account with
      | none => .error .rpc
      | some stored =>
        let paraBasicNonce := stored.getD 0
        match computeNoncesToFind env paraHash rest with
        | .error e => .error e
        | .ok m =>
          if paraBasicNonce > ethBasicNonce then
            .ok ((account, ethBasicNonce + 1) :: m)
          else
            .ok m

/-- `findTasks` (source lines 78-148): compare nonces, return the empty
task list when no account is behind, otherwise run the backward walk and
gather proof inputs.  The source discards the error returned by
`gatherProofInputs` (line 145), so only the mutated task list is used. -/
def findTasks (env : ScanEnv) (paraBlock : Nat) (paraHash : Hash) :
    Except ScanError (List Task) :=
  match computeNoncesToFind env paraHash env.accounts with
  | .error e => .error e
  | .ok basicChannelAccountNoncesToFind =>
    if basicChannelAccountNoncesToFind.isEmpty then .ok []
    else
      match findTasksImpl env paraBlock basicChannelAccountNoncesToFind with
      | .error e => .error e
      | .ok tasks => .ok (gatherProofInputs env tasks).1

/-- The relay block number whose hash `Scan` requests first:
`uint64(beefyBlockNumber - 1)`, i.e. subtraction modulo `2^64`. -/
def beefyQueryBlock (beefyBlockNumber : Nat) : Nat :=
  (beefyBlockNumber + (UInt64Mod - 1)) % UInt64Mod

/-- `Scan` (source lines 43-70): fetch the parachain head finalized at
the relay block before the BEEFY block and delegate to `findTasks`. -/
def Scan (env : ScanEnv) (beefyBlockNumber : Nat) :
    Except ScanError (List Task) :=
  match env.relayBlockHash (beefyQueryBlock beefyBlockNumber) with
  | none => .error .rpc
  | some beefyBlockMinusOneHash =>
    match env.fetchParachainHead beefyBlockMinusOneHash with
    | none => .error .rpc
    | some none => .error .notRegistered
    | some (some paraHead) =>
      match env.paraBlockHash paraHead.number with
      | none => .error .rpc
      | some paraBlockHash => findTasks env paraHead.number paraBlockHash

/-! ### Concrete chain environments used to evaluate the scanner -/

/-- Parachain header at block 1 used by the C1 scenario: a single
commitment digest item with hash 77. -/
def hdrC1 : Header :=
  { number := 1, parentHash := 0, stateRoot := 0, extrinsicsRoot := 0,
    digest := [.commitment 77] }

/-- A parachain head registered at the relay blocks of the C1 inclusion
window; its number (99) never matches the task's header number (1). -/
def hdrOtherC1 : Header :=
  { number := 99, parentHash := 0, stateRoot := 0, extrinsicsRoot := 0,
    digest := [] }

/-- C1 environment: one account (5) one nonce behind, one parachain
block carrying the commitment, and an inclusion window in which no
relay block registers a parachain head with the task's number. -/
def envC1 : ScanEnv :=
  { paraID := 7
    accounts := [5]
    relayBlockHash := fun n =>
      if n = 0 then some 100 else if 1 ≤ n ∧ n ≤ 4 then some (100 + n) else none
    fetchParachainHead := fun h =>
      if h = 100 then some (some hdrC1)
      else if 101 ≤ h ∧ h ≤ 104 then some (some hdrOtherC1) else none
    fetchParachainHeads := fun _ => some []
    paraBlockHash := fun n => if n = 1 then some 11 else none
    paraHeader := fun h => if h = 11 then some hdrC1 else none
    ethNonce := fun a => if a = 5 then some 0 else none
    paraNonce := fun h a => if h = 11 ∧ a = 5 then some (some 1) else none
    queryEvent := fun h =>
      if h = 11 then some (some { hash := 77, bundles := [⟨5, 1, []⟩] }) else none
    getMerkleProof := fun h i => if h = 77 ∧ i = 0 then some ⟨77⟩ else none
    validationData := fun h =>
      if h = 11 then some (some ⟨[], 0, 0, 0⟩) else none }

/-- The single task the walker produces in the C1 scenario. -/
def taskC1 : Task :=
  { header := hdrC1
    basicChannelProofs := [⟨⟨5, 1, []⟩, ⟨77⟩⟩]
    proofInput := none }

/-- Parachain header at block 1 used by the C2 scenario: two commitment
digest items announcing the same commitment hash 77. -/
def hdrC2 : Header :=
  { number := 1, parentHash := 0, stateRoot := 0, extrinsicsRoot := 0,
    digest := [.commitment 77, .commitment 77] }

/-- The Committed event of the C2 block: one bundle for account 5 at its
target nonce and one bundle for account 6 above its target nonce. -/
def evC2 : CommittedEvent :=
  { hash := 77, bundles := [⟨5, 1, []⟩, ⟨6, 2, []⟩] }

/-- C2 environment: accounts 5 and 6 both one nonce behind, one
parachain block whose digest carries two commitment items. -/
def envC2 : ScanEnv :=
  { paraID := 7
    accounts := [5, 6]
    relayBlockHash := fun _ => none
    fetchParachainHead := fun _ => none
    fetchParachainHeads := fun _ => none
    paraBlockHash := fun n => if n = 1 then some 11 else none
    paraHeader := fun h => if h = 11 then some hdrC2 else none
    ethNonce := fun a => if a = 5 ∨ a = 6 then some 0 else none
    paraNonce := fun h a =>
      if h = 11 ∧ a = 5 then some (some 1)
      else if h = 11 ∧ a = 6 then some (some 2) else none
    queryEvent := fun h => if h = 11 then some (some evC2) else none
    getMerkleProof := fun h i => if h = 77 ∧ i ≤ 1 then some ⟨77⟩ else none
    validationData := fun _ => none }

/-- The bundle proof collected for account 5 by the first commitment
item of the C2 block. -/
def bp5C2 : BundleProof := ⟨⟨5, 1, []⟩, ⟨77⟩⟩

/-- The bundle proof collected for account 6. -/
def bp6C2 : BundleProof := ⟨⟨6, 2, []⟩, ⟨77⟩⟩

/-- Parachain head registered at relay block `2^64 - 1` in the C10
scenario. -/
def hdrC10 : Header :=
  { number := 3, parentHash := 0, stateRoot := 0, extrinsicsRoot := 0,
    digest := [] }

/-- C10 environment: the relay chain block-hash oracle answers only at
block `2^64 - 1`; no account is configured. -/
def envC10 : ScanEnv :=
  { paraID := 7
    accounts := []
    relayBlockHash := fun n => if n = UInt64Mod - 1 then some 100 else none
    fetchParachainHead := fun h => if h = 100 then some (some hdrC10) else none
    fetchParachainHeads := fun _ => none
    paraBlockHash := fun n => if n = 3 then some 31 else none
    paraHeader := fun _ => none
    ethNonce := fun _ => none
    paraNonce := fun _ _ => none
    queryEvent := fun _ => none
    getMerkleProof := fun _ _ => none
    validationData := fun _ => none }

/-- Environment for the C3 witness: the merkle-proof oracle answers with a root matching commitment hash 77. -/
def envC3w : ScanEnv :=
  { paraID := 0
    accounts := [5]
    relayBlockHash := fun _ => none
    fetchParachainHead := fun _ => none
    fetchParachainHeads := fun _ => none
    paraBlockHash := fun _ => none
    paraHeader := fun _ => none
    ethNonce := fun _ => none
    paraNonce := fun _ _ => none
    queryEvent := fun _ => none
    getMerkleProof := fun h i => if h = 77 ∧ i = 0 then some ⟨77⟩ else none
    validationData := fun _ => none }

/-- Environment for the C4 witness: the merkle-proof oracle answers with root 99, never matching commitment hash 77. -/
def envC4w : ScanEnv :=
  { paraID := 0
    accounts := [5]
    relayBlockHash := fun _ => none
    fetchParachainHead := fun _ => none
    fetchParachainHeads := fun _ => none
    paraBlockHash := fun _ => none
    paraHeader := fun _ => none
    ethNonce := fun _ => none
    paraNonce := fun _ _ => none
    queryEvent := fun _ => none
    getMerkleProof := fun h _ => if h = 77 then some ⟨99⟩ else none
    validationData := fun _ => none }

/-- Parachain header for the C5 witness: one commitment digest item. -/
def hdrC5w : Header :=
  { number := 1, parentHash := 0, stateRoot := 0, extrinsicsRoot := 0,
    digest := [.commitment 77] }

/-- Environment for the C5 witness: the event query succeeds but reports no Committed event for the block. -/
def envC5w : ScanEnv :=
  { paraID := 0
    accounts := [5]
    relayBlockHash := fun _ => none
    fetchParachainHead := fun _ => none
    fetchParachainHeads := fun _ => none
    paraBlockHash := fun n => if n = 1 then some 11 else none
    paraHeader := fun h => if h = 11 then some hdrC5w else none
    ethNonce := fun _ => none
    paraNonce := fun _ _ => none
    queryEvent := fun h => if h = 11 then some none else none
    getMerkleProof := fun _ _ => none
    validationData := fun _ => none }

/-- Environment for the C6 witness: the single account 5 has equal nonces (3) on both sides. -/
def envC6w : ScanEnv :=
  { paraID := 0
    accounts := [5]
    relayBlockHash := fun _ => none
    fetchParachainHead := fun _ => none
    fetchParachainHeads := fun _ => none
    paraBlockHash := fun _ => none
    paraHeader := fun _ => none
    ethNonce := fun a => if a = 5 then some 3 else none
    paraNonce := fun h a => if h = 21 ∧ a = 5 then some (some 3) else none
    queryEvent := fun _ => none
    getMerkleProof := fun _ _ => none
    validationData := fun _ => none }

/-- Parachain head registered on the relay chain in the C7 witness environment. -/
def hdrC7w : Header :=
  { number := 3, parentHash := 0, stateRoot := 0, extrinsicsRoot := 0,
    digest := [] }

/-- Environment for the C7 witness: no accounts are configured, so the scan returns the empty task list. -/
def envC7w : ScanEnv :=
  { paraID := 0
    accounts := []
    relayBlockHash := fun n => if n = 0 then some 100 else none
    fetchParachainHead := fun h => if h = 100 then some (some hdrC7w) else none
    fetchParachainHeads := fun _ => none
    paraBlockHash := fun n => if n = 3 then some 31 else none
    paraHeader := fun _ => none
    ethNonce := fun _ => none
    paraNonce := fun _ _ => none
    queryEvent := fun _ => none
    getMerkleProof := fun _ _ => none
    validationData := fun _ => none }

/-- Environment for the C8 witness: every oracle fails. -/
def envC8w : ScanEnv :=
  { paraID := 0
    accounts := []
    relayBlockHash := fun _ => none
    fetchParachainHead := fun _ => none
    fetchParachainHeads := fun _ => none
    paraBlockHash := fun _ => none
    paraHeader := fun _ => none
    ethNonce := fun _ => none
    paraNonce := fun _ _ => none
    queryEvent := fun _ => none
    getMerkleProof := fun _ _ => none
    validationData := fun _ => none }

/-- Parachain header at block 1 of the C9 witness chain, registered both at the BEEFY anchor and at the inclusion relay block. -/
def hdrC9w : Header :=
  { number := 1, parentHash := 0, stateRoot := 0, extrinsicsRoot := 0,
    digest := [.commitment 77] }

/-- Environment for the C9 witness: a consistent single-account, single-block chain in which the scan succeeds end to end and the inclusion search finds relay block 1. -/
def envC9w : ScanEnv :=
  { paraID := 0
    accounts := [5]
    relayBlockHash := fun n =>
      if n = 0 then some 100 else if n = 1 then some 101 else none
    fetchParachainHead := fun h =>
      if h = 100 ∨ h = 101 then some (some hdrC9w) else none
    fetchParachainHeads := fun h => if h = 101 then some [hdrC9w] else none
    paraBlockHash := fun n => if n = 1 then some 11 else none
    paraHeader := fun h => if h = 11 then some hdrC9w else none
    ethNonce := fun a => if a = 5 then some 0 else none
    paraNonce := fun h a => if h = 11 ∧ a = 5 then some (some 1) else none
    queryEvent := fun h =>
      if h = 11 then some (some ⟨77, [⟨5, 1, []⟩]⟩) else none
    getMerkleProof := fun h i => if h = 77 ∧ i = 0 then some ⟨77⟩ else none
    validationData := fun h =>
      if h = 11 then some (some ⟨[], 0, 0, 0⟩) else none }

/-- The task returned by the scan over the C9 witness environment. -/
def taskC9w : Task :=
  { header := hdrC9w
    basicChannelProofs := [⟨⟨5, 1, []⟩, ⟨77⟩⟩]
    proofInput := some ⟨0, 1, [hdrC9w]⟩ }

/-- The proof input attached to the C9 witness task. -/
def piC9w : ProofInput := ⟨0, 1, [hdrC9w]⟩

/-! ### Helper lemmas about the embedded scanner -/

/-- A successfully fetched bundle proof wraps exactly the requested bundle. -/
theorem fetchBundleProof_bundle (env : ScanEnv) (ch : Hash) (idx : Nat)
    (b : BasicOutboundChannelMessageBundle) (bp : BundleProof)
    (hf : fetchBundleProof env ch idx b = .ok bp) : bp.bundle = b := by
  unfold fetchBundleProof at hf
  cases hp : env.getMerkleProof ch idx with
  | none => rw [hp] at hf; cases hf
  | some p => rw [hp] at hf; cases hf; rfl

/-- After `markAccountScanDone` the account is no longer in the searching set. -/
theorem mem_markAccountScanDone_not (searching : List Account) (a : Account) :
    a ∉ (markAccountScanDone searching a).1 := by
  intro hmem
  unfold markAccountScanDone at hmem
  simp only [List.mem_filter] at hmem
  have := hmem.2
  simp at this

/-- Bundle-loop invariant: every collected proof carries a nonce at least as large as the target nonce registered for its account. -/
theorem scanLoop_collected_ge (env : ScanEnv) (h : Hash)
    (targets : List (Account × Nat))
    (bundles : List BasicOutboundChannelMessageBundle) :
    ∀ (idx : Nat) (acc : List BundleProof) (s : List Account) (d : Bool)
      (r : ScanResult),
      scanLoop env h targets bundles idx acc s d = .ok r →
      (∀ q ∈ acc, lookupNonce targets q.bundle.account ≤ q.bundle.nonce) →
      ∀ q ∈ r.proofs, lookupNonce targets q.bundle.account ≤ q.bundle.nonce := by
  induction bundles with
  | nil =>
    intro idx acc s d r hr hacc
    simp only [scanLoop] at hr
    cases hr
    exact hacc
  | cons b rest ih =>
    intro idx acc s d r hr hacc
    simp only [scanLoop] at hr
    by_cases hmem : b.account ∈ s
    · rw [if_pos hmem] at hr
      by_cases hlt : b.nonce < lookupNonce targets b.account
      · rw [if_pos hlt] at hr
        exact ih _ _ _ _ r hr hacc
      · rw [if_neg hlt] at hr
        cases hfetch : fetchBundleProof env h idx b with
        | error e => rw [hfetch] at hr; cases hr
        | ok bp =>
          rw [hfetch] at hr
          dsimp only at hr
          have hbp := fetchBundleProof_bundle env h idx b bp hfetch
          by_cases hroot : bp.proof.root ≠ h
          · rw [if_pos hroot] at hr
            exact ih _ _ _ _ r hr hacc
          · rw [if_neg hroot] at hr
            by_cases hgt : b.nonce > lookupNonce targets b.account
            · rw [if_pos hgt] at hr
              refine ih _ _ _ _ r hr ?_
              intro q hq
              rcases List.mem_append.mp hq with hq | hq
              · exact hacc q hq
              · simp only [List.mem_singleton] at hq
                subst hq
                rw [hbp]
                exact Nat.le_of_lt hgt
            · rw [if_neg hgt] at hr
              by_cases heq : b.nonce = lookupNonce targets b.account
              · rw [if_pos heq] at hr
                refine ih _ _ _ _ r hr ?_
                intro q hq
                rcases List.mem_append.mp hq with hq | hq
                · exact hacc q hq
                · simp only [List.mem_singleton] at hq
                  subst hq
                  rw [hbp, heq]
              · rw [if_neg heq] at hr
                exact ih _ _ _ _ r hr hacc
    · rw [if_neg hmem] at hr
      exact ih _ _ _ _ r hr hacc

/-- The bundle loop only ever appends to the accumulated proof list. -/
theorem scanLoop_extends (env : ScanEnv) (h : Hash)
    (targets : List (Account × Nat))
    (bundles : List BasicOutboundChannelMessageBundle) :
    ∀ (idx : Nat) (acc : List BundleProof) (s : List Account) (d : Bool)
      (r : ScanResult),
      scanLoop env h targets bundles idx acc s d = .ok r →
      ∃ l, r.proofs = acc ++ l := by
  induction bundles with
  | nil =>
    intro idx acc s d r hr
    simp only [scanLoop] at hr
    cases hr
    exact ⟨[], (List.append_nil acc).symm⟩
  | cons b rest ih =>
    intro idx acc s d r hr
    simp only [scanLoop] at hr
    by_cases hmem : b.account ∈ s
    · rw [if_pos hmem] at hr
      by_cases hlt : b.nonce < lookupNonce targets b.account
      · rw [if_pos hlt] at hr
        exact ih _ _ _ _ r hr
      · rw [if_neg hlt] at hr
        cases hfetch : fetchBundleProof env h idx b with
        | error e => rw [hfetch] at hr; cases hr
        | ok bp =>
          rw [hfetch] at hr
          dsimp only at hr
          by_cases hroot : bp.proof.root ≠ h
          · rw [if_pos hroot] at hr
            exact ih _ _ _ _ r hr
          · rw [if_neg hroot] at hr
            by_cases hgt : b.nonce > lookupNonce targets b.account
            · rw [if_pos hgt] at hr
              obtain ⟨l, hl⟩ := ih _ _ _ _ r hr
              exact ⟨bp :: l, by rw [hl, List.append_assoc]; rfl⟩
            · rw [if_neg hgt] at hr
              by_cases heq : b.nonce = lookupNonce targets b.account
              · rw [if_pos heq] at hr
                obtain ⟨l, hl⟩ := ih _ _ _ _ r hr
                exact ⟨bp :: l, by rw [hl, List.append_assoc]; rfl⟩
              · rw [if_neg heq] at hr
                exact ih _ _ _ _ r hr
    · rw [if_neg hmem] at hr
      exact ih _ _ _ _ r hr

/-- Every proof the bundle loop collects reconstructs to the announcing commitment hash. -/
theorem scanLoop_root_collected (env : ScanEnv) (h : Hash)
    (targets : List (Account × Nat))
    (bundles : List BasicOutboundChannelMessageBundle) :
    ∀ (idx : Nat) (acc : List BundleProof) (s : List Account) (d : Bool)
      (r : ScanResult),
      scanLoop env h targets bundles idx acc s d = .ok r →
      (∀ q ∈ acc, q.proof.root = h) →
      ∀ q ∈ r.proofs, q.proof.root = h := by
  induction bundles with
  | nil =>
    intro idx acc s d r hr hacc
    simp only [scanLoop] at hr
    cases hr
    exact hacc
  | cons b rest ih =>
    intro idx acc s d r hr hacc
    simp only [scanLoop] at hr
    by_cases hmem : b.account ∈ s
    · rw [if_pos hmem] at hr
      by_cases hlt : b.nonce < lookupNonce targets b.account
      · rw [if_pos hlt] at hr
        exact ih _ _ _ _ r hr hacc
      · rw [if_neg hlt] at hr
        cases hfetch : fetchBundleProof env h idx b with
        | error e => rw [hfetch] at hr; cases hr
        | ok bp =>
          rw [hfetch] at hr
          dsimp only at hr
          by_cases hroot : bp.proof.root ≠ h
          · rw [if_pos hroot] at hr
            exact ih _ _ _ _ r hr hacc
          · rw [if_neg hroot] at hr
            rw [not_not] at hroot
            have hacc' : ∀ q ∈ acc ++ [bp], q.proof.root = h := by
              intro q hq
              rcases List.mem_append.mp hq with hq | hq
              · exact hacc q hq
              · simp only [List.mem_singleton] at hq
                subst hq
                exact hroot
            by_cases hgt : b.nonce > lookupNonce targets b.account
            · rw [if_pos hgt] at hr
              exact ih _ _ _ _ r hr hacc'
            · rw [if_neg hgt] at hr
              by_cases heq : b.nonce = lookupNonce targets b.account
              · rw [if_pos heq] at hr
                exact ih _ _ _ _ r hr hacc'
              · rw [if_neg heq] at hr
                exact ih _ _ _ _ r hr hacc
    · rw [if_neg hmem] at hr
      exact ih _ _ _ _ r hr hacc

/-- When every merkle-proof fetch succeeds, the bundle loop cannot fail, whatever the roots reconstruct to. -/
theorem scanLoop_ok_of_fetch_ok (env : ScanEnv) (h : Hash)
    (targets : List (Account × Nat))
    (bundles : List BasicOutboundChannelMessageBundle)
    (hfetch : ∀ i, (env.getMerkleProof h i).isSome = true) :
    ∀ (idx : Nat) (acc : List BundleProof) (s : List Account) (d : Bool),
      ∃ r, scanLoop env h targets bundles idx acc s d = .ok r := by
  induction bundles with
  | nil =>
    intro idx acc s d
    exact ⟨⟨acc, s, d⟩, rfl⟩
  | cons b rest ih =>
    intro idx acc s d
    simp only [scanLoop]
    by_cases hmem : b.account ∈ s
    · rw [if_pos hmem]
      by_cases hlt : b.nonce < lookupNonce targets b.account
      · rw [if_pos hlt]
        exact ih _ _ _ _
      · rw [if_neg hlt]
        have hsome := hfetch idx
        cases hp : env.getMerkleProof h idx with
        | none => rw [hp] at hsome; cases hsome
        | some p =>
          have : fetchBundleProof env h idx b = .ok ⟨b, p⟩ := by
            unfold fetchBundleProof
            rw [hp]
          rw [this]
          dsimp only
          by_cases hroot : p.root ≠ h
          · rw [if_pos hroot]
            exact ih _ _ _ _
          · rw [if_neg hroot]
            by_cases hgt : b.nonce > lookupNonce targets b.account
            · rw [if_pos hgt]
              exact ih _ _ _ _
            · rw [if_neg hgt]
              by_cases heq : b.nonce = lookupNonce targets b.account
              · rw [if_pos heq]
                exact ih _ _ _ _
              · rw [if_neg heq]
                exact ih _ _ _ _
    · rw [if_neg hmem]
      exact ih _ _ _ _

/-- Every task the backward walk emits has no proof input yet and carries a header fetched from some visited block number. -/
theorem walk_tasks_provenance (env : ScanEnv) (targets : List (Account × Nat)) :
    ∀ (n : Nat) (s : List Account) (d : Bool) (l : List Task),
      walk env targets n s d = .ok l →
      ∀ t ∈ l, t.proofInput = none ∧ ∃ m hsh, 1 ≤ m ∧ m ≤ n ∧
        env.paraBlockHash m = some hsh ∧ env.paraHeader hsh = some t.header := by
  intro n
  induction n with
  | zero =>
    intro s d l hw t ht
    unfold walk walkAux at hw
    cases hw
    cases ht
  | succ n ih =>
    intro s d l hw t ht
    unfold walk at hw
    simp only [walkAux] at hw
    cases d with
    | true =>
      simp only [if_pos] at hw
      cases hw
      cases ht
    | false =>
      rw [if_neg Bool.false_ne_true] at hw
      cases hbh : env.paraBlockHash (n + 1) with
      | none => rw [hbh] at hw; cases hw
      | some bh =>
        rw [hbh] at hw
        dsimp only at hw
        cases hph : env.paraHeader bh with
        | none => rw [hph] at hw; cases hw
        | some header =>
          rw [hph] at hw
          dsimp only at hw
          cases hdg : header.digest.isEmpty with
          | true =>
            rw [hdg] at hw
            rw [if_pos rfl] at hw
            dsimp only at hw
            obtain ⟨hpi, m, hsh, h1, h2, h3, h4⟩ := ih s false l hw t ht
            exact ⟨hpi, m, hsh, h1, Nat.le_succ_of_le h2, h3, h4⟩
          | false =>
            rw [hdg] at hw
            rw [if_neg Bool.false_ne_true] at hw
            cases hqe : env.queryEvent bh with
            | none => rw [hqe] at hw; cases hw
            | some evq =>
              rw [hqe] at hw
              dsimp only at hw
              cases hpd : processDigestItems env targets evq header.digest [] s false with
              | error e => rw [hpd] at hw; cases hw
              | ok res =>
                rw [hpd] at hw
                obtain ⟨proofs, s', d'⟩ := res
                dsimp only at hw
                cases hr1 : (walkAux env targets n s' d').1 with
                | error e => rw [hr1] at hw; cases hw
                | ok tasks' =>
                  rw [hr1] at hw
                  dsimp only at hw
                  have htail : ∀ u ∈ tasks', u.proofInput = none ∧ ∃ m hsh,
                      1 ≤ m ∧ m ≤ n + 1 ∧ env.paraBlockHash m = some hsh ∧
                      env.paraHeader hsh = some u.header := by
                    intro u hu
                    obtain ⟨hpi, m, hsh, h1, h2, h3, h4⟩ := ih s' d' tasks' hr1 u hu
                    exact ⟨hpi, m, hsh, h1, Nat.le_succ_of_le h2, h3, h4⟩
                  cases hpe : proofs.isEmpty with
                  | true =>
                    rw [hpe] at hw
                    rw [if_pos rfl] at hw
                    cases hw
                    exact htail t ht
                  | false =>
                    rw [hpe] at hw
                    rw [if_neg Bool.false_ne_true] at hw
                    cases hw
                    rcases List.mem_cons.mp ht with hhd | htl
                    · subst hhd
                      exact ⟨rfl, n + 1, bh, Nat.succ_le_succ (Nat.zero_le n),
                        Nat.le_refl _, hbh, hph⟩
                    · exact htail t htl

/-- When fetched headers carry their true block numbers, the backward walk emits tasks with strictly decreasing header numbers, all within the scanned range. -/
theorem walk_tasks_pairwise (env : ScanEnv) (targets : List (Account × Nat))
    (hgen : ∀ n hsh hd, env.paraBlockHash n = some hsh →
      env.paraHeader hsh = some hd → hd.number = n) :
    ∀ (n : Nat) (s : List Account) (d : Bool) (l : List Task),
      walk env targets n s d = .ok l →
      (∀ t ∈ l, 1 ≤ t.header.number ∧ t.header.number ≤ n)
      ∧ List.Pairwise (fun a b => b.header.number < a.header.number) l := by
  intro n
  induction n with
  | zero =>
    intro s d l hw
    unfold walk walkAux at hw
    cases hw
    exact ⟨fun t ht => absurd ht (List.not_mem_nil t), List.Pairwise.nil⟩
  | succ n ih =>
    intro s d l hw
    unfold walk at hw
    simp only [walkAux] at hw
    cases d with
    | true =>
      simp only [if_pos] at hw
      cases hw
      exact ⟨fun t ht => absurd ht (List.not_mem_nil t), List.Pairwise.nil⟩
    | false =>
      rw [if_neg Bool.false_ne_true] at hw
      cases hbh : env.paraBlockHash (n + 1) with
      | none => rw [hbh] at hw; cases hw
      | some bh =>
        rw [hbh] at hw
        dsimp only at hw
        cases hph : env.paraHeader bh with
        | none => rw [hph] at hw; cases hw
        | some header =>
          rw [hph] at hw
          dsimp only at hw
          cases hdg : header.digest.isEmpty with
          | true =>
            rw [hdg] at hw
            rw [if_pos rfl] at hw
            dsimp only at hw
            obtain ⟨hb, hp⟩ := ih s false l hw
            exact ⟨fun t ht => ⟨(hb t ht).1, Nat.le_succ_of_le (hb t ht).2⟩, hp⟩
          | false =>
            rw [hdg] at hw
            rw [if_neg Bool.false_ne_true] at hw
            cases hqe : env.queryEvent bh with
            | none => rw [hqe] at hw; cases hw
            | some evq =>
              rw [hqe] at hw
              dsimp only at hw
              cases hpd : processDigestItems env targets evq header.digest [] s false with
              | error e => rw [hpd] at hw; cases hw
              | ok res =>
                rw [hpd] at hw
                obtain ⟨proofs, s', d'⟩ := res
                dsimp only at hw
                cases hr1 : (walkAux env targets n s' d').1 with
                | error e => rw [hr1] at hw; cases hw
                | ok tasks' =>
                  rw [hr1] at hw
                  dsimp only at hw
                  obtain ⟨hb, hp⟩ := ih s' d' tasks' hr1
                  cases hpe : proofs.isEmpty with
                  | true =>
                    rw [hpe] at hw
                    rw [if_pos rfl] at hw
                    cases hw
                    exact ⟨fun t ht => ⟨(hb t ht).1, Nat.le_succ_of_le (hb t ht).2⟩, hp⟩
                  | false =>
                    rw [hpe] at hw
                    rw [if_neg Bool.false_ne_true] at hw
                    cases hw
                    have hnum : header.number = n + 1 := hgen (n + 1) bh header hbh hph
                    constructor
                    · intro t ht
                      rcases List.mem_cons.mp ht with hhd | htl
                      · subst hhd
                        dsimp only
                        rw [hnum]
                        exact ⟨Nat.succ_le_succ (Nat.zero_le n), Nat.le_refl _⟩
                      · exact ⟨(hb t htl).1, Nat.le_succ_of_le (hb t htl).2⟩
                    · refine List.Pairwise.cons ?_ hp
                      intro u hu
                      dsimp only
                      rw [hnum]
                      exact Nat.lt_succ_of_le (hb u hu).2

/-- The visited block numbers are strictly decreasing, lie between 1 and the starting number, and count at most the starting number. -/
theorem walkTrace_bounded_pairwise (env : ScanEnv) (targets : List (Account × Nat)) :
    ∀ (n : Nat) (s : List Account) (d : Bool),
      (∀ m ∈ walkTrace env targets n s d, 1 ≤ m ∧ m ≤ n)
      ∧ List.Pairwise (fun a b => b < a) (walkTrace env targets n s d)
      ∧ (walkTrace env targets n s d).length ≤ n := by
  intro n
  induction n with
  | zero =>
    intro s d
    exact ⟨fun m hm => absurd hm (List.not_mem_nil m), List.Pairwise.nil, Nat.le_refl 0⟩
  | succ n ih =>
    intro s d
    have hsingle : (∀ m ∈ [n + 1], 1 ≤ m ∧ m ≤ n + 1)
        ∧ List.Pairwise (fun a b => b < a) [n + 1]
        ∧ ([n + 1] : List Nat).length ≤ n + 1 := by
      refine ⟨?_, List.pairwise_singleton _ _, Nat.succ_le_succ (Nat.zero_le n)⟩
      intro m hm
      rw [List.mem_singleton] at hm
      subst hm
      exact ⟨Nat.succ_le_succ (Nat.zero_le n), Nat.le_refl _⟩
    have hstep : ∀ (s' : List Account) (d' : Bool),
        (∀ m ∈ (n + 1) :: walkTrace env targets n s' d', 1 ≤ m ∧ m ≤ n + 1)
        ∧ List.Pairwise (fun a b => b < a) ((n + 1) :: walkTrace env targets n s' d')
        ∧ ((n + 1) :: walkTrace env targets n s' d').length ≤ n + 1 := by
      intro s' d'
      obtain ⟨hb, hp, hl⟩ := ih s' d'
      refine ⟨?_, List.Pairwise.cons (fun m hm => Nat.lt_succ_of_le (hb m hm).2) hp,
        Nat.succ_le_succ hl⟩
      intro m hm
      rcases List.mem_cons.mp hm with hhd | htl
      · subst hhd
        exact ⟨Nat.succ_le_succ (Nat.zero_le n), Nat.le_refl _⟩
      · exact ⟨(hb m htl).1, Nat.le_succ_of_le (hb m htl).2⟩
    unfold walkTrace
    simp only [walkAux]
    cases d with
    | true =>
      rw [if_pos rfl]
      exact ⟨fun m hm => absurd hm (List.not_mem_nil m), List.Pairwise.nil,
        Nat.zero_le _⟩
    | false =>
      rw [if_neg Bool.false_ne_true]
      cases hbh : env.paraBlockHash (n + 1) with
      | none => exact hsingle
      | some bh =>
        dsimp only
        cases hph : env.paraHeader bh with
        | none => exact hsingle
        | some header =>
          dsimp only
          cases hdg : header.digest.isEmpty with
          | true =>
            rw [if_pos rfl]
            exact hstep s false
          | false =>
            rw [if_neg Bool.false_ne_true]
            cases hqe : env.queryEvent bh with
            | none => exact hsingle
            | some evq =>
              dsimp only
              cases hpd : processDigestItems env targets evq header.digest [] s false with
              | error e => exact hsingle
              | ok res =>
                obtain ⟨proofs, s', d'⟩ := res
                dsimp only
                cases hr1 : (walkAux env targets n s' d').1 with
                | error e => exact hstep s' d'
                | ok tasks' =>
                  dsimp only
                  cases hpe : proofs.isEmpty with
                  | true =>
                    rw [if_pos rfl]
                    exact hstep s' d'
                  | false =>
                    rw [if_neg Bool.false_ne_true]
                    exact hstep s' d'

/-- Stable insertion permutes the inserted element into the list. -/
theorem insertTaskByNumber_perm (t : Task) (l : List Task) :
    List.Perm (insertTaskByNumber t l) (t :: l) := by
  induction l with
  | nil => exact List.Perm.refl [t]
  | cons u us ih =>
    simp only [insertTaskByNumber]
    by_cases hle : u.header.number ≤ t.header.number
    · rw [if_pos hle]
      exact List.Perm.trans (List.Perm.cons u ih) (List.Perm.swap t u us)
    · rw [if_neg hle]

/-- Folding stable insertions over a list permutes it onto the accumulator. -/
theorem sortTasksByNumber_perm_aux (l : List Task) :
    ∀ acc : List Task,
      List.Perm (l.foldl (fun acc t => insertTaskByNumber t acc) acc) (acc ++ l) := by
  induction l with
  | nil =>
    intro acc
    simp only [List.foldl_nil, List.append_nil]
    exact List.Perm.refl acc
  | cons t ts ih =>
    intro acc
    rw [List.foldl_cons]
    refine List.Perm.trans (ih (insertTaskByNumber t acc)) ?_
    have h1 : List.Perm (insertTaskByNumber t acc ++ ts) ((t :: acc) ++ ts) :=
      (insertTaskByNumber_perm t acc).append_right ts
    refine List.Perm.trans h1 ?_
    rw [List.cons_append]
    exact List.perm_middle.symm

/-- The stable sort is a permutation. -/
theorem sortTasksByNumber_perm (l : List Task) :
    List.Perm (sortTasksByNumber l) l :=
  sortTasksByNumber_perm_aux l []

/-- Stable insertion preserves sortedness by header number. -/
theorem insertTaskByNumber_sorted (t : Task) (l : List Task)
    (hl : List.Pairwise (fun a b => a.header.number ≤ b.header.number) l) :
    List.Pairwise (fun a b => a.header.number ≤ b.header.number)
      (insertTaskByNumber t l) := by
  induction l with
  | nil => exact List.pairwise_singleton _ _
  | cons u us ih =>
    simp only [insertTaskByNumber]
    rcases List.pairwise_cons.mp hl with ⟨hu, hus⟩
    by_cases hle : u.header.number ≤ t.header.number
    · rw [if_pos hle]
      refine List.pairwise_cons.mpr ⟨?_, ih hus⟩
      intro x hx
      rcases List.mem_cons.mp ((insertTaskByNumber_perm t us).mem_iff.mp hx) with hx' | hx'
      · rw [hx']
        exact hle
      · exact hu x hx'
    · rw [if_neg hle]
      have hlt : t.header.number ≤ u.header.number :=
        Nat.le_of_lt (Nat.lt_of_not_le hle)
      refine List.pairwise_cons.mpr ⟨?_, hl⟩
      intro x hx
      rcases List.mem_cons.mp hx with hx' | hx'
      · rw [hx']
        exact hlt
      · exact Nat.le_trans hlt (hu x hx')

/-- Folding stable insertions preserves sortedness of the accumulator. -/
theorem sortTasksByNumber_sorted_aux (l : List Task) :
    ∀ acc : List Task,
      List.Pairwise (fun a b => a.header.number ≤ b.header.number) acc →
      List.Pairwise (fun a b => a.header.number ≤ b.header.number)
        (l.foldl (fun acc t => insertTaskByNumber t acc) acc) := by
  induction l with
  | nil => intro acc hacc; exact hacc
  | cons t ts ih =>
    intro acc hacc
    rw [List.foldl_cons]
    exact ih (insertTaskByNumber t acc) (insertTaskByNumber_sorted t acc hacc)

/-- The stable sort produces a list weakly ascending in header number. -/
theorem sortTasksByNumber_sorted (l : List Task) :
    List.Pairwise (fun a b => a.header.number ≤ b.header.number)
      (sortTasksByNumber l) :=
  sortTasksByNumber_sorted_aux l [] List.Pairwise.nil

/-- Gathering proof inputs never changes the headers or the order of the tasks. -/
theorem gatherProofInputs_map_header (env : ScanEnv) :
    ∀ l : List Task,
      (gatherProofInputs env l).1.map Task.header = l.map Task.header := by
  intro l
  induction l with
  | nil => rfl
  | cons t rest ih =>
    simp only [gatherProofInputs]
    cases hfi : findInclusionBlockNumber env t.header.number with
    | error e => rfl
    | ok rbn =>
      dsimp only
      cases hrh : env.relayBlockHash rbn with
      | none => rfl
      | some rh =>
        dsimp only
        cases hph : env.fetchParachainHeads rh with
        | none => rfl
        | some heads =>
          dsimp only
          rw [List.map_cons, List.map_cons, ih]

/-- Every task coming out of the proof-input pass either passed through untouched or records the inclusion block number and parachain heads the oracles produced for its header number. -/
theorem gatherProofInputs_provenance (env : ScanEnv) :
    ∀ (l : List Task) (t' : Task), t' ∈ (gatherProofInputs env l).1 →
      t' ∈ l ∨ ∃ t ∈ l, t'.header = t.header ∧ ∃ rbn rh heads,
        findInclusionBlockNumber env t'.header.number = .ok rbn ∧
        env.relayBlockHash rbn = some rh ∧
        env.fetchParachainHeads rh = some heads ∧
        t'.proofInput = some ⟨env.paraID, rbn, heads⟩ := by
  intro l
  induction l with
  | nil => intro t' ht'; cases ht'
  | cons t rest ih =>
    intro t' ht'
    simp only [gatherProofInputs] at ht'
    cases hfi : findInclusionBlockNumber env t.header.number with
    | error e =>
      rw [hfi] at ht'
      exact Or.inl ht'
    | ok rbn =>
      rw [hfi] at ht'
      dsimp only at ht'
      cases hrh : env.relayBlockHash rbn with
      | none => rw [hrh] at ht'; exact Or.inl ht'
      | some rh =>
        rw [hrh] at ht'
        dsimp only at ht'
        cases hph : env.fetchParachainHeads rh with
        | none => rw [hph] at ht'; exact Or.inl ht'
        | some heads =>
          rw [hph] at ht'
          dsimp only at ht'
          rcases List.mem_cons.mp ht' with hhd | htl
          · subst hhd
            refine Or.inr ⟨t, List.mem_cons_self t rest, rfl, rbn, rh, heads, ?_, hrh, hph, rfl⟩
            exact hfi
          · rcases ih t' htl with hin | ⟨t0, ht0, hrest⟩
            · exact Or.inl (List.mem_cons_of_mem t hin)
            · exact Or.inr ⟨t0, List.mem_cons_of_mem t ht0, hrest⟩

/-- A successful inclusion probe returns a candidate relay block whose registered parachain head has the sought block number. -/
theorem findInclusionLoop_ok (env : ScanEnv) (pn : Nat) :
    ∀ (cands : List Nat) (i : Nat), findInclusionLoop env pn cands = .ok i →
      ∃ rh hd, env.relayBlockHash i = some rh ∧
        env.fetchParachainHead rh = some (some hd) ∧ hd.number = pn := by
  intro cands
  induction cands with
  | nil => intro i hi; cases hi
  | cons c cs ih =>
    intro i hi
    simp only [findInclusionLoop] at hi
    cases hrh : env.relayBlockHash c with
    | none => rw [hrh] at hi; cases hi
    | some rh =>
      rw [hrh] at hi
      dsimp only at hi
      cases hfh : env.fetchParachainHead rh with
      | none => rw [hfh] at hi; cases hi
      | some o =>
        rw [hfh] at hi
        cases o with
        | none => cases hi
        | some hd =>
          dsimp only at hi
          by_cases heq : pn = hd.number
          · rw [if_pos heq] at hi
            cases hi
            exact ⟨rh, hd, hrh, hfh, heq.symm⟩
          · rw [if_neg heq] at hi
            exact ih i hi

/-- A successful inclusion search returns a relay block whose registered parachain head has the sought block number. -/
theorem findInclusionBlockNumber_ok (env : ScanEnv) (pn i : Nat)
    (h : findInclusionBlockNumber env pn = .ok i) :
    ∃ rh hd, env.relayBlockHash i = some rh ∧
      env.fetchParachainHead rh = some (some hd) ∧ hd.number = pn := by
  unfold findInclusionBlockNumber at h
  cases hbh : env.paraBlockHash pn with
  | none => rw [hbh] at h; cases h
  | some pbh =>
    rw [hbh] at h
    dsimp only at h
    cases hvd : env.validationData pbh with
    | none => rw [hvd] at h; cases h
    | some o =>
      rw [hvd] at h
      cases o with
      | none => cases h
      | some vd =>
        dsimp only at h
        exact findInclusionLoop_ok env pn _ i h

/-- A successful scan either returns the empty list or the gathered, sorted output of a successful backward walk. -/
theorem Scan_ok_cases (env : ScanEnv) (b : Nat) (tasks : List Task)
    (hscan : Scan env b = .ok tasks) :
    tasks = [] ∨ ∃ (m : List (Account × Nat)) (pn : Nat) (wl : List Task),
      walk env m pn (m.map Prod.fst) ((m.map Prod.fst).isEmpty) = .ok wl ∧
      tasks = (gatherProofInputs env (sortTasksByNumber wl)).1 := by
  unfold Scan at hscan
  cases h0 : env.relayBlockHash (beefyQueryBlock b) with
  | none => rw [h0] at hscan; cases hscan
  | some bh0 =>
    rw [h0] at hscan
    dsimp only at hscan
    cases h1 : env.fetchParachainHead bh0 with
    | none => rw [h1] at hscan; cases hscan
    | some o =>
      rw [h1] at hscan
      cases o with
      | none => cases hscan
      | some paraHead =>
        dsimp only at hscan
        cases h2 : env.paraBlockHash paraHead.number with
        | none => rw [h2] at hscan; cases hscan
        | some pbh =>
          rw [h2] at hscan
          dsimp only at hscan
          unfold findTasks at hscan
          cases h3 : computeNoncesToFind env pbh env.accounts with
          | error e => rw [h3] at hscan; cases hscan
          | ok m =>
            rw [h3] at hscan
            dsimp only at hscan
            cases hme : m.isEmpty with
            | true =>
              rw [hme] at hscan
              rw [if_pos rfl] at hscan
              cases hscan
              exact Or.inl rfl
            | false =>
              rw [hme] at hscan
              rw [if_neg Bool.false_ne_true] at hscan
              unfold findTasksImpl at hscan
              dsimp only at hscan
              cases h4 : walk env m paraHead.number (m.map Prod.fst) ((m.map Prod.fst).isEmpty) with
              | error e => rw [h4] at hscan; cases hscan
              | ok wl =>
                rw [h4] at hscan
                dsimp only at hscan
                cases hscan
                exact Or.inr ⟨m, paraHead.number, wl, h4, rfl⟩

/-- The nonce comparison reads only the Ethereum and parachain nonce oracles. -/
theorem computeNoncesToFind_congr (env env' : ScanEnv) (paraHash : Hash)
    (accts : List Account)
    (he : env'.ethNonce = env.ethNonce) (hp : env'.paraNonce = env.paraNonce) :
    computeNoncesToFind env' paraHash accts = computeNoncesToFind env paraHash accts := by
  induction accts with
  | nil => rfl
  | cons a rest ih =>
    simp only [computeNoncesToFind, he, hp, ih]

/-- Characterization of the mismatch map: an account maps to its Ethereum nonce plus one exactly when its parachain nonce is strictly greater. -/
theorem computeNoncesToFind_spec (env : ScanEnv) (paraHash : Hash) :
    ∀ (accts : List Account) (m : List (Account × Nat)),
      computeNoncesToFind env paraHash accts = .ok m →
      (∀ a e p, a ∈ accts → env.ethNonce a = some e →
        env.paraNonce paraHash a = some p → ((a, e + 1) ∈ m ↔ e < p.getD 0))
      ∧ (∀ a v, (a, v) ∈ m → a ∈ accts ∧ ∃ e p, env.ethNonce a = some e ∧
          env.paraNonce paraHash a = some p ∧ v = e + 1 ∧ e < p.getD 0) := by
  intro accts
  induction accts with
  | nil =>
    intro m hm
    cases hm
    exact ⟨fun a e p ha => absurd ha (List.not_mem_nil a),
      fun a v hav => absurd hav (List.not_mem_nil (a, v))⟩
  | cons a0 rest ih =>
    intro m hm
    simp only [computeNoncesToFind] at hm
    cases he0 : env.ethNonce a0 with
    | none => rw [he0] at hm; cases hm
    | some e0 =>
      rw [he0] at hm
      dsimp only at hm
      cases hp0 : env.paraNonce paraHash a0 with
      | none => rw [hp0] at hm; cases hm
      | some p0 =>
        rw [hp0] at hm
        dsimp only at hm
        cases hrest : computeNoncesToFind env paraHash rest with
        | error e => rw [hrest] at hm; cases hm
        | ok m' =>
          rw [hrest] at hm
          dsimp only at hm
          obtain ⟨ih1, ih2⟩ := ih m' hrest
          by_cases hcond : p0.getD 0 > e0
          · rw [if_pos hcond] at hm
            cases hm
            constructor
            · intro a e p ha he hp
              rcases List.mem_cons.mp ha with ha' | ha'
              · subst ha'
                rw [he0] at he
                injection he with he'
                subst he'
                rw [hp0] at hp
                injection hp with hp'
                subst hp'
                constructor
                · intro _
                  exact hcond
                · intro _
                  exact List.mem_cons_self _ _
              · constructor
                · intro hmem
                  rcases List.mem_cons.mp hmem with hx | hx
                  · have hae : a = a0 := congrArg Prod.fst hx
                    subst hae
                    rw [he0] at he
                    injection he with he'
                    subst he'
                    rw [hp0] at hp
                    injection hp with hp'
                    subst hp'
                    exact hcond
                  · exact (ih1 a e p ha' he hp).mp hx
                · intro hlt
                  exact List.mem_cons_of_mem _ ((ih1 a e p ha' he hp).mpr hlt)
            · intro a v hav
              rcases List.mem_cons.mp hav with hx | hx
              · have hae : a = a0 := congrArg Prod.fst hx
                have hve : v = e0 + 1 := congrArg Prod.snd hx
                subst hae
                subst hve
                exact ⟨List.mem_cons_self _ _, e0, p0, he0, hp0, rfl, hcond⟩
              · obtain ⟨hmem, e, p, he, hp, hv, hlt⟩ := ih2 a v hx
                exact ⟨List.mem_cons_of_mem _ hmem, e, p, he, hp, hv, hlt⟩
          · rw [if_neg hcond] at hm
            cases hm
            constructor
            · intro a e p ha he hp
              rcases List.mem_cons.mp ha with ha' | ha'
              · subst ha'
                rw [he0] at he
                injection he with he'
                subst he'
                rw [hp0] at hp
                injection hp with hp'
                subst hp'
                constructor
                · intro hmem
                  obtain ⟨-, e', p', he', hp', hv', hlt'⟩ := ih2 _ (e0 + 1) hmem
                  rw [he0] at he'
                  injection he' with he''
                  rw [hp0] at hp'
                  injection hp' with hp''
                  subst hp''
                  have : e' = e0 := Nat.succ_injective hv'.symm
                  subst this
                  exact absurd hlt' hcond
                · intro hlt
                  exact absurd hlt hcond
              · exact ih1 a e p ha' he hp
            · intro a v hav
              obtain ⟨hmem, e, p, he, hp, hv, hlt⟩ := ih2 a v hav
              exact ⟨List.mem_cons_of_mem _ hmem, e, p, he, hp, hv, hlt⟩

/-! ### The claims -/

/-- C1.  In `envC1` no relay block in the inclusion window
`[relay_parent_number + 1, relay_parent_number + 1 + FinalizationTimeout)`
registers a parachain head whose number equals the task's header number,
so `findInclusionBlockNumber` fails and `gatherProofInputs` reports the
`inclusionNotFound` error — yet `Scan` still returns the task list with
no error, because `findTasks` (source line 145) discards the error
returned by `gatherProofInputs`. -/
theorem C1_scan_ok_despite_inclusion_not_found :
    findInclusionBlockNumber envC1 taskC1.header.number = .error .inclusionNotFound
    ∧ (gatherProofInputs envC1 [taskC1]).2 = some .inclusionNotFound
    ∧ Scan envC1 1 = .ok [taskC1]
    ∧ taskC1.proofInput = none := by
  refine ⟨rfl, rfl, rfl, rfl⟩

/-- C2.  Processing the first commitment item of the C2 block collects
proofs for both accounts 5 and 6, but because `findTasksImpl` assigns
`basicChannelProofs = result.proofs` (source line 239) instead of
appending, the second commitment item's result replaces it, and the
emitted task carries only account 6's proof: account 5's proof is lost
rather than accumulated. -/
theorem C2_second_digest_item_discards_first_proofs :
    scanForBasicChannelProofs envC2 77 [(5, 1), (6, 1)] [5, 6] evC2.bundles
      = .ok ⟨[bp5C2, bp6C2], [6], false⟩
    ∧ findTasksImpl envC2 1 [(5, 1), (6, 1)]
      = .ok [{ header := hdrC2, basicChannelProofs := [bp6C2], proofInput := none }]
    ∧ bp5C2 ∉ [bp6C2] := by
  refine ⟨rfl, rfl, by decide⟩

/-- C3.  In `scanForBasicChannelProofs`, a bundle of an account outside the searching set is skipped; for a searching account with `target = targets[account]`: if `bundle.nonce < target` the account is marked Done and nothing is collected, if the fetched proof verifies and `bundle.nonce > target` the proof is collected with the account left searching, if it verifies and `bundle.nonce = target` the proof is collected and the account is marked Done; and every collected proof satisfies `bundle.nonce ≥ target` for its account. -/
theorem C3_bundle_nonce_cases (env : ScanEnv) (h : Hash)
    (targets : List (Account × Nat)) (b : BasicOutboundChannelMessageBundle)
    (rest : List BasicOutboundChannelMessageBundle) (idx : Nat)
    (proofs : List BundleProof) (searching : List Account) (done : Bool)
    (hmem : b.account ∈ searching) :
    (b.nonce < lookupNonce targets b.account →
      scanLoop env h targets (b :: rest) idx proofs searching done
        = scanLoop env h targets rest (idx + 1) proofs
            (markAccountScanDone searching b.account).1
            (markAccountScanDone searching b.account).2)
    ∧ (∀ bp, fetchBundleProof env h idx b = .ok bp → bp.proof.root = h →
        lookupNonce targets b.account < b.nonce →
        scanLoop env h targets (b :: rest) idx proofs searching done
          = scanLoop env h targets rest (idx + 1) (proofs ++ [bp]) searching done)
    ∧ (∀ bp, fetchBundleProof env h idx b = .ok bp → bp.proof.root = h →
        b.nonce = lookupNonce targets b.account →
        scanLoop env h targets (b :: rest) idx proofs searching done
          = scanLoop env h targets rest (idx + 1) (proofs ++ [bp])
              (markAccountScanDone searching b.account).1
              (markAccountScanDone searching b.account).2
          ∧ b.account ∉ (markAccountScanDone searching b.account).1)
    ∧ (∀ b' : BasicOutboundChannelMessageBundle, b'.account ∉ searching →
        scanLoop env h targets (b' :: rest) idx proofs searching done
          = scanLoop env h targets rest (idx + 1) proofs searching done)
    ∧ (∀ r, scanLoop env h targets (b :: rest) idx proofs searching done = .ok r →
        (∀ q ∈ proofs, lookupNonce targets q.bundle.account ≤ q.bundle.nonce) →
        ∀ q ∈ r.proofs, lookupNonce targets q.bundle.account ≤ q.bundle.nonce) := by
  refine ⟨?_, ?_, ?_, ?_, ?_⟩
  · intro hlt
    simp only [scanLoop]
    rw [if_pos hmem, if_pos hlt]
  · intro bp hfetch hroot hgt
    simp only [scanLoop]
    rw [if_pos hmem, if_neg (Nat.not_lt.mpr (Nat.le_of_lt hgt)), hfetch]
    dsimp only
    rw [if_neg (not_not_intro hroot), if_pos hgt]
  · intro bp hfetch hroot heq
    constructor
    · simp only [scanLoop]
      rw [if_pos hmem, if_neg (Nat.not_lt.mpr (Nat.le_of_eq heq.symm)), hfetch]
      dsimp only
      rw [if_neg (not_not_intro hroot), if_neg (by rw [heq]; exact Nat.lt_irrefl _),
        if_pos heq]
    · exact mem_markAccountScanDone_not searching b.account
  · intro b' hout
    simp only [scanLoop]
    rw [if_neg hout]
  · intro r hr hacc
    exact scanLoop_collected_ge env h targets (b :: rest) idx proofs searching done r hr hacc

/-- Witness for C3 at a concrete bundle below its target nonce. -/
theorem C3_witness :
    scanLoop envC3w 77 [(5, 2)] [⟨5, 1, []⟩] 0 [] [5] false
      = scanLoop envC3w 77 [(5, 2)] [] 1 []
          (markAccountScanDone [5] 5).1 (markAccountScanDone [5] 5).2 :=
  (C3_bundle_nonce_cases envC3w 77 [(5, 2)] ⟨5, 1, []⟩ [] 0 [] [5] false
    (by decide)).1 (by decide)

/-- C4.  When a fetched merkle proof does not reconstruct to the announcing digest item hash, the scan does not error for that reason: the affected account is marked Done, the mismatching proof is never collected, previously collected proofs are still returned, and (as long as fetches succeed) the loop completes successfully. -/
theorem C4_proof_root_mismatch_soft (env : ScanEnv) (h : Hash)
    (targets : List (Account × Nat)) (b : BasicOutboundChannelMessageBundle)
    (rest : List BasicOutboundChannelMessageBundle) (idx : Nat)
    (proofs : List BundleProof) (searching : List Account) (done : Bool)
    (bp : BundleProof)
    (hmem : b.account ∈ searching)
    (hnlt : ¬ b.nonce < lookupNonce targets b.account)
    (hfetch : fetchBundleProof env h idx b = .ok bp)
    (hroot : bp.proof.root ≠ h) :
    scanLoop env h targets (b :: rest) idx proofs searching done
      = scanLoop env h targets rest (idx + 1) proofs
          (markAccountScanDone searching b.account).1
          (markAccountScanDone searching b.account).2
    ∧ b.account ∉ (markAccountScanDone searching b.account).1
    ∧ (∀ r, scanLoop env h targets (b :: rest) idx proofs searching done = .ok r →
        (∀ q ∈ proofs, q.proof.root = h) →
        (∀ q ∈ r.proofs, q.proof.root = h) ∧ bp ∉ r.proofs ∧
        ∃ l, r.proofs = proofs ++ l)
    ∧ ((∀ i, (env.getMerkleProof h i).isSome = true) →
        ∃ r, scanLoop env h targets (b :: rest) idx proofs searching done = .ok r) := by
  have hstep : scanLoop env h targets (b :: rest) idx proofs searching done
      = scanLoop env h targets rest (idx + 1) proofs
          (markAccountScanDone searching b.account).1
          (markAccountScanDone searching b.account).2 := by
    simp only [scanLoop]
    rw [if_pos hmem, if_neg hnlt, hfetch]
    dsimp only
    rw [if_pos hroot]
  refine ⟨hstep, mem_markAccountScanDone_not searching b.account, ?_, ?_⟩
  · intro r hr hacc
    have hall := scanLoop_root_collected env h targets (b :: rest) idx proofs
      searching done r hr hacc
    exact ⟨hall, fun hin => hroot (hall bp hin),
      scanLoop_extends env h targets (b :: rest) idx proofs searching done r hr⟩
  · intro hall
    exact scanLoop_ok_of_fetch_ok env h targets (b :: rest) hall idx proofs searching done

/-- Witness for C4 at a concrete mismatching proof. -/
theorem C4_witness :
    scanLoop envC4w 77 [(5, 1)] [⟨5, 2, []⟩] 0 [⟨⟨6, 1, []⟩, ⟨77⟩⟩] [5] false
      = scanLoop envC4w 77 [(5, 1)] [] 1 [⟨⟨6, 1, []⟩, ⟨77⟩⟩]
          (markAccountScanDone [5] 5).1 (markAccountScanDone [5] 5).2
    ∧ (5 : Account) ∉ (markAccountScanDone [5] 5).1 := by
  have h := C4_proof_root_mismatch_soft envC4w 77 [(5, 1)] ⟨5, 2, []⟩ [] 0
    [⟨⟨6, 1, []⟩, ⟨77⟩⟩] [5] false ⟨⟨5, 2, []⟩, ⟨99⟩⟩
    (by decide) (by decide) rfl (by decide)
  exact ⟨h.1, h.2.1⟩

/-- C5.  While at least one account is still searching, a commitment digest item whose block has no Committed event fails the walk with the events-missing error, and one whose hash differs from the event hash fails it with the hash-mismatch error; both abort the task search with an error, so no task list is produced. -/
theorem C5_commitment_event_hard_errors (env : ScanEnv)
    (targets : List (Account × Nat)) :
    (∀ (item : AuxiliaryDigestItem) (rest : List AuxiliaryDigestItem)
        (proofs : List BundleProof) (searching : List Account),
      item.isCommitment = true →
      processDigestItems env targets none (item :: rest) proofs searching false
        = .error .eventsMissing)
    ∧ (∀ (ev : CommittedEvent) (item : AuxiliaryDigestItem)
        (rest : List AuxiliaryDigestItem) (proofs : List BundleProof)
        (searching : List Account),
      item.isCommitment = true → ev.hash ≠ item.commitmentHash →
      processDigestItems env targets (some ev) (item :: rest) proofs searching false
        = .error .commitmentHashMismatch)
    ∧ (∀ (n : Nat) (hsh : Hash) (header : Header) (evq : Option CommittedEvent)
        (e : ScanError),
      targets ≠ [] →
      env.paraBlockHash (n + 1) = some hsh →
      env.paraHeader hsh = some header →
      header.digest.isEmpty = false →
      env.queryEvent hsh = some evq →
      processDigestItems env targets evq header.digest [] (targets.map Prod.fst) false
        = .error e →
      findTasksImpl env (n + 1) targets = .error e) := by
  refine ⟨?_, ?_, ?_⟩
  · intro item rest proofs searching hc
    simp only [processDigestItems]
    rw [if_neg (by simp [hc])]
    rw [if_neg Bool.false_ne_true]
  · intro ev item rest proofs searching hc hne
    simp only [processDigestItems]
    rw [if_neg (by simp [hc])]
    rw [if_neg Bool.false_ne_true]
    rw [if_pos hne]
  · intro n hsh header evq e hts hbh hph hdg hqe hpd
    have hdone : (targets.map Prod.fst).isEmpty = false := by
      cases targets with
      | nil => exact absurd rfl hts
      | cons t ts => rfl
    have hwalk : walk env targets (n + 1) (targets.map Prod.fst) false = .error e := by
      unfold walk
      simp only [walkAux]
      rw [if_neg Bool.false_ne_true, hbh]
      dsimp only
      rw [hph]
      dsimp only
      rw [hdg]
      rw [if_neg Bool.false_ne_true, hqe]
      dsimp only
      rw [hpd]
    unfold findTasksImpl
    dsimp only
    rw [hdone, hwalk]

/-- Witness for C5 at a concrete block with a commitment item. -/
theorem C5_witness :
    processDigestItems envC5w [(5, 1)] none [.commitment 77] [] [5] false
      = .error .eventsMissing
    ∧ processDigestItems envC5w [(5, 1)] (some ⟨99, []⟩) [.commitment 77] [] [5] false
      = .error .commitmentHashMismatch
    ∧ findTasksImpl envC5w 1 [(5, 1)] = .error .eventsMissing := by
  have h := C5_commitment_event_hard_errors envC5w [(5, 1)]
  refine ⟨h.1 (.commitment 77) [] [] [5] rfl,
    h.2.1 ⟨99, []⟩ (.commitment 77) [] [] [5] rfl (by decide), ?_⟩
  exact h.2.2 0 11 hdrC5w none .eventsMissing (by decide) rfl rfl rfl rfl
    (h.1 (.commitment 77) [] [] [5] rfl)

/-- C6.  An account is placed in the mismatch map with target one past the Ethereum nonce exactly when its parachain nonce at the starting block exceeds its Ethereum nonce (absent storage reads as zero), and when the map is empty the task search returns the empty task list without consulting any oracle other than the nonce readers. -/
theorem C6_first_missing_nonce_map (env : ScanEnv) (paraHash : Hash) :
    (∀ m, computeNoncesToFind env paraHash env.accounts = .ok m →
      (∀ a e p, a ∈ env.accounts → env.ethNonce a = some e →
        env.paraNonce paraHash a = some p → ((a, e + 1) ∈ m ↔ e < p.getD 0))
      ∧ (∀ a v, (a, v) ∈ m → a ∈ env.accounts ∧ ∃ e p,
          env.ethNonce a = some e ∧ env.paraNonce paraHash a = some p ∧
          v = e + 1 ∧ e < p.getD 0))
    ∧ (∀ env' : ScanEnv, env'.accounts = env.accounts →
        env'.ethNonce = env.ethNonce → env'.paraNonce = env.paraNonce →
        computeNoncesToFind env paraHash env.accounts = .ok [] →
        ∀ paraBlock, findTasks env' paraBlock paraHash = .ok []) := by
  constructor
  · intro m hm
    exact computeNoncesToFind_spec env paraHash env.accounts m hm
  · intro env' ha he hp hok paraBlock
    unfold findTasks
    rw [ha, computeNoncesToFind_congr env env' paraHash env.accounts he hp, hok]
    rfl

/-- Witness for C6 at a concrete environment with equal nonces. -/
theorem C6_witness :
    (((5 : Account), (4 : Nat)) ∈ ([] : List (Account × Nat)) ↔ (3 : Nat) < 3)
    ∧ findTasks envC6w 9 21 = .ok [] := by
  have h := C6_first_missing_nonce_map envC6w 21
  exact ⟨(h.1 [] rfl).1 5 3 (some 3) (by decide) rfl rfl,
    h.2 envC6w rfl rfl rfl rfl 9⟩

/-- C7.  When fetched headers carry their true block numbers, every successful scan returns tasks whose parachain block numbers are strictly increasing. -/
theorem C7_tasks_strictly_increasing (env : ScanEnv) (beefyBlockNumber : Nat)
    (tasks : List Task)
    (hgen : ∀ n hsh hd, env.paraBlockHash n = some hsh →
      env.paraHeader hsh = some hd → hd.number = n)
    (hscan : Scan env beefyBlockNumber = .ok tasks) :
    List.Pairwise (fun t u => t.header.number < u.header.number) tasks := by
  rcases Scan_ok_cases env beefyBlockNumber tasks hscan with hnil | ⟨m, pn, wl, h4, htasks⟩
  · subst hnil
    exact List.Pairwise.nil
  · subst htasks
    have hwp := (walk_tasks_pairwise env m hgen pn
      (m.map Prod.fst) ((m.map Prod.fst).isEmpty) wl h4).2
    have hnodup : (wl.map fun t => t.header.number).Nodup :=
      List.Pairwise.map (fun t : Task => t.header.number)
        (fun a b hab => (Nat.ne_of_lt hab).symm) hwp
    have hperm := sortTasksByNumber_perm wl
    have hsorted := sortTasksByNumber_sorted wl
    have hnodup2 : ((sortTasksByNumber wl).map fun t => t.header.number).Nodup :=
      ((hperm.map fun t : Task => t.header.number).nodup_iff).mpr hnodup
    have hne : List.Pairwise
        (fun a b : Task => a.header.number ≠ b.header.number)
        (sortTasksByNumber wl) := List.pairwise_map.mp hnodup2
    have hlt : List.Pairwise
        (fun a b : Task => a.header.number < b.header.number)
        (sortTasksByNumber wl) :=
      (hsorted.and hne).imp fun hab => Nat.lt_of_le_of_ne hab.1 hab.2
    have hmaph : List.Pairwise (fun a b : Header => a.number < b.number)
        ((sortTasksByNumber wl).map Task.header) :=
      List.Pairwise.map Task.header (fun a b hab => hab) hlt
    rw [← gatherProofInputs_map_header env (sortTasksByNumber wl)] at hmaph
    have h5 := List.pairwise_map.mp hmaph
    exact h5

/-- Witness for C7 at a concrete successful scan. -/
theorem C7_witness :
    List.Pairwise (fun t u : Task => t.header.number < u.header.number)
      ([] : List Task) := by
  refine C7_tasks_strictly_increasing envC7w 1 [] ?_ rfl
  intro n hsh hd h1 h2
  simp only [envC7w] at h2
  cases h2

/-- C8.  The backward walk visits block numbers in strictly descending order, visits each at most once, examines at most the starting number of blocks, visits nothing when the starting number is zero, and visits nothing when every account is already Done.  (The walk is a structurally recursive function, so it terminates on every input.) -/
theorem C8_walk_terminates (env : ScanEnv) (targets : List (Account × Nat))
    (lastParaBlockNumber : Nat) (searching : List Account) (done : Bool) :
    List.Pairwise (fun a b => b < a)
      (walkTrace env targets lastParaBlockNumber searching done)
    ∧ (walkTrace env targets lastParaBlockNumber searching done).Nodup
    ∧ (walkTrace env targets lastParaBlockNumber searching done).length
        ≤ lastParaBlockNumber
    ∧ (∀ m ∈ walkTrace env targets lastParaBlockNumber searching done,
        1 ≤ m ∧ m ≤ lastParaBlockNumber)
    ∧ walkTrace env targets 0 searching done = []
    ∧ (done = true → walkTrace env targets lastParaBlockNumber searching done = []) := by
  obtain ⟨hb, hp, hl⟩ := walkTrace_bounded_pairwise env targets lastParaBlockNumber searching done
  refine ⟨hp, hp.imp (fun hab => (Nat.ne_of_lt hab).symm), hl, hb, rfl, ?_⟩
  intro hd
  subst hd
  cases lastParaBlockNumber with
  | zero => rfl
  | succ n => rfl

/-- Witness for C8 with the done flag set. -/
theorem C8_witness :
    walkTrace envC8w [] 5 [] true = []
    ∧ (walkTrace envC8w [] 5 [] true).length ≤ 5 := by
  have h := C8_walk_terminates envC8w [] 5 [] true
  exact ⟨h.2.2.2.2.2 rfl, h.2.2.1⟩

/-- C9.  Assuming the relay oracles are consistent (a registered head that shares its number with a fetched parachain header is that header, and the heads list agrees with the single-head fetch at the configured parachain id), every task returned with a proof input points at a relay block whose registered parachain head equals the task header, and its heads list contains the task header at that index. -/
theorem C9_proof_input_consistency (env : ScanEnv) (beefyBlockNumber : Nat)
    (tasks : List Task)
    (huniq : ∀ rh hd n hsh hd', env.fetchParachainHead rh = some (some hd) →
      env.paraBlockHash n = some hsh → env.paraHeader hsh = some hd' →
      hd.number = hd'.number → hd = hd')
    (hheads : ∀ rh heads hd, env.fetchParachainHeads rh = some heads →
      env.fetchParachainHead rh = some (some hd) →
      heads.get? env.paraID = some hd)
    (hscan : Scan env beefyBlockNumber = .ok tasks) :
    ∀ t ∈ tasks, ∀ pi, t.proofInput = some pi →
      pi.paraID = env.paraID
      ∧ (∃ rh hd, env.relayBlockHash pi.relayBlockNumber = some rh
          ∧ env.fetchParachainHead rh = some (some hd) ∧ hd = t.header)
      ∧ pi.paraHeads.get? env.paraID = some t.header := by
  intro t ht pi hpi
  rcases Scan_ok_cases env beefyBlockNumber tasks hscan with hnil | ⟨m, pn, wl, h4, htasks⟩
  · subst hnil
    cases ht
  · subst htasks
    rcases gatherProofInputs_provenance env (sortTasksByNumber wl) t ht with
      hin | ⟨t0, ht0, hhdr, rbn, rh, heads, hfi, hrh, hph, hpieq⟩
    · have hin' : t ∈ wl := (sortTasksByNumber_perm wl).mem_iff.mp hin
      have hnone := (walk_tasks_provenance env m pn (m.map Prod.fst)
        ((m.map Prod.fst).isEmpty) wl h4 t hin').1
      rw [hnone] at hpi
      cases hpi
    · rw [hpieq] at hpi
      injection hpi with hpi'
      subst hpi'
      obtain ⟨rh', hd, hrh', hfh, hnum⟩ := findInclusionBlockNumber_ok env t.header.number rbn hfi
      have hrhe : rh' = rh := by
        rw [hrh] at hrh'
        injection hrh'.symm
      subst hrhe
      have ht0' : t0 ∈ wl := (sortTasksByNumber_perm wl).mem_iff.mp ht0
      obtain ⟨-, m0, hsh0, -, -, hpb0, hph0⟩ := walk_tasks_provenance env m pn
        (m.map Prod.fst) ((m.map Prod.fst).isEmpty) wl h4 t0 ht0'
      have hdnum : hd.number = t0.header.number := by
        rw [hnum, hhdr]
      have hde : hd = t0.header := huniq rh' hd m0 hsh0 t0.header hfh hpb0 hph0 hdnum
      have hdt : hd = t.header := by rw [hde, hhdr]
      refine ⟨rfl, ⟨rh', hd, ?_, hfh, hdt⟩, ?_⟩
      · exact hrh'
      · have := hheads rh' heads hd hph hfh
        rw [hdt] at this
        exact this

/-- Witness for C9 at a concrete consistent chain. -/
theorem C9_witness :
    piC9w.paraID = envC9w.paraID
    ∧ (∃ rh hd, envC9w.relayBlockHash piC9w.relayBlockNumber = some rh
        ∧ envC9w.fetchParachainHead rh = some (some hd) ∧ hd = taskC9w.header)
    ∧ piC9w.paraHeads.get? envC9w.paraID = some taskC9w.header := by
  refine C9_proof_input_consistency envC9w 1 [taskC9w] ?_ ?_ rfl
    taskC9w (List.mem_singleton.mpr rfl) piC9w rfl
  · intro rh hd n hsh hd' h1 h2 h3 h4
    simp only [envC9w] at h1 h3
    split at h1
    · injection h1 with h1'
      injection h1' with h1''
      split at h3
      · injection h3 with h3'
        rw [← h1'', ← h3']
      · cases h3
    · cases h1
  · intro rh heads hd h1 h2
    simp only [envC9w] at h1 h2
    split at h1
    · injection h1 with h1'
      split at h2
      · injection h2 with h2'
        injection h2' with h2''
        rw [← h1', ← h2'']
        rfl
      · cases h2
    · cases h1

/-- C10.  `Scan` performs no lower-bound check on `beefyBlockNumber`:
the relay block hash is requested at `(beefyBlockNumber - 1) mod 2^64`,
so a scan at BEEFY block 0 queries relay block `2^64 - 1` (uint64
wraparound) instead of rejecting the input — in `envC10`, whose hash
oracle answers only at `2^64 - 1`, the scan completes successfully. -/
theorem C10_beefy_zero_wraps_to_uint64_max :
    beefyQueryBlock 0 = UInt64Mod - 1
    ∧ Scan envC10 0 = .ok [] := by
  refine ⟨by decide, rfl⟩

end Snowbridge
